import Mathlib

/-!
Verification development for the heatseeker core
(src/src/gameLogic.ts and src/src/App.tsx).

Coordinates are modelled as pairs of integers.  The source keys its
`Set`/`Map` containers by the string `"x,y"`; for integer coordinates that
keying is injective, so a `Finset (Int × Int)` (for the lava set) and a
function `Int × Int → Option Int` (for the visited map) are faithful models.
Randomness (`Math.random()`) is modelled by explicit draw parameters:
`Math.floor(Math.random() * n)` becomes a natural number draw below `n`,
and the coordinate draws of the generator loop become an explicit list or
stream of coordinates.
-/

/-- A coordinate on the grid: `(x, y)`. -/
abbrev Coord := Int × Int

/-- Level configuration record, from `src/src/types.ts` (`Level`). -/
structure Level where
  size : Nat
  minLava : Nat
  maxLava : Nat
deriving DecidableEq

/-- The level catalog, from `src/src/gameLogic.ts` lines 4-15. -/
def levels : List Level :=
  [⟨10, 1, 5⟩, ⟨10, 5, 15⟩, ⟨20, 20, 40⟩, ⟨32, 40, 100⟩, ⟨40, 100, 200⟩,
   ⟨50, 250, 750⟩, ⟨64, 400, 800⟩, ⟨64, 800, 1600⟩, ⟨100, 1600, 2400⟩,
   ⟨100, 2000, 5000⟩]

/-- The eight `(dx, dy)` offsets visited by the double loop of
`calculateHeat` (`dx` outer from -1 to 1, `dy` inner, skipping `(0,0)`). -/
def neighborOffsets : List Coord :=
  [(-1, -1), (-1, 0), (-1, 1), (0, -1), (0, 1), (1, -1), (1, 0), (1, 1)]

/-- `calculateHeat` from `src/src/gameLogic.ts` lines 18-28: count how many
of the 8 neighbouring coordinates are in the lava set. -/
def calculateHeat (x y : Int) (lavaSet : Finset Coord) : Nat :=
  (neighborOffsets.filter (fun d => decide ((x + d.1, y + d.2) ∈ lavaSet))).length

/-- The two protected squares of `generateLavaSquares`
(`src/src/gameLogic.ts` line 37): start `(0, size-1)` and target `(size-1, 0)`. -/
def safeSquaresFor (level : Level) : Finset Coord :=
  {(0, (level.size : Int) - 1), ((level.size : Int) - 1, 0)}

/-- The `while (newLavaSquares.size < lavaCount)` loop of
`generateLavaSquares` (`src/src/gameLogic.ts` lines 39-47), with the random
coordinate draws supplied as an explicit list; `none` means the supplied
draws were exhausted before the target count was reached. -/
def genLoop (lavaCount : Nat) (safeSquares : Finset Coord) :
    List Coord → Finset Coord → Option (Finset Coord)
  | [], acc => if lavaCount ≤ acc.card then some acc else none
  | d :: rest, acc =>
    if lavaCount ≤ acc.card then some acc
    else if d ∉ safeSquares ∧ d ∉ acc then
      genLoop lavaCount safeSquares rest (insert d acc)
    else
      genLoop lavaCount safeSquares rest acc

/-- Core of `generateLavaSquares` (`src/src/gameLogic.ts` lines 31-50),
parameterised over the level record it reads from the catalog.
`countDraw` models `Math.floor(Math.random() * (maxLava - minLava + 1))`
(so the intended range is `0 ≤ countDraw ≤ maxLava - minLava`), and
`lavaCount = countDraw + minLava` as in line 33. -/
def generateLavaSquaresFor (level : Level) (countDraw : Nat)
    (coordDraws : List Coord) : Option (Finset Coord) :=
  let lavaCount := countDraw + level.minLava
  genLoop lavaCount (safeSquaresFor level) coordDraws ∅

/-- `generateLavaSquares(currentLevel)` from `src/src/gameLogic.ts`:
looks up `levels[currentLevel]` and runs the sampling loop. -/
def generateLavaSquares (currentLevel : Nat) (countDraw : Nat)
    (coordDraws : List Coord) : Option (Finset Coord) :=
  generateLavaSquaresFor (levels.getD currentLevel ⟨0, 0, 0⟩) countDraw coordDraws

/-- Move directions; `other` stands for any direction-like value outside the
four recognised ones (the `default` branch of the `switch`). -/
inductive Direction
  | up
  | down
  | left
  | right
  | other
deriving DecidableEq

/-- `MoveResult` from `src/src/types.ts`. -/
structure MoveResult where
  valid : Bool
  newPos : Coord
deriving DecidableEq

/-- The tail of `isValidMove`: `moved = newX !== x || newY !== y`,
returned together with the new position (`src/src/gameLogic.ts` lines 74-78). -/
def mkMoveResult (currentPos newPos : Coord) : MoveResult :=
  ⟨decide (newPos.1 ≠ currentPos.1) || decide (newPos.2 ≠ currentPos.2), newPos⟩

/-- `isValidMove` from `src/src/gameLogic.ts` lines 53-79. -/
def isValidMove (currentPos : Coord) (direction : Direction) (gridSize : Int) :
    MoveResult :=
  match direction with
  | .up => mkMoveResult currentPos (currentPos.1, max 0 (currentPos.2 - 1))
  | .down => mkMoveResult currentPos (currentPos.1, min (gridSize - 1) (currentPos.2 + 1))
  | .left => mkMoveResult currentPos (max 0 (currentPos.1 - 1), currentPos.2)
  | .right => mkMoveResult currentPos (min (gridSize - 1) (currentPos.1 + 1), currentPos.2)
  | .other => ⟨false, currentPos⟩

/-- Game status, from `src/src/types.ts` (`GameState`). -/
inductive GStatus
  | playing
  | won
  | lost
deriving DecidableEq

/-- The game state owned by the `Heatseeker` component
(`src/src/App.tsx` lines 32-40). -/
structure GameStateM where
  currentLevel : Nat
  playerPos : Coord
  lavaSquares : Finset Coord
  visitedSquares : Coord → Option Int
  gameState : GStatus
  moves : Nat
  totalMoves : Nat
  highestLevelAchieved : Nat

/-- `FINAL_LEVEL_INDEX = levels.length - 1` (`src/src/App.tsx` line 19). -/
def FINAL_LEVEL_INDEX : Nat := levels.length - 1

/-- `levels[currentLevel]` as read by the component. -/
def levelOf (s : GameStateM) : Level := levels.getD s.currentLevel ⟨0, 0, 0⟩

/-- `Map.set` on the visited map: set key `k` to value `v`. -/
def vset (m : Coord → Option Int) (k : Coord) (v : Int) : Coord → Option Int :=
  fun c => if c = k then some v else m c

/-- `initializeLevel` from `src/src/App.tsx` lines 104-118.  The freshly
generated lava set (the value of `generateLavaSquares()` on line 109) is
passed as the explicit parameter `newLavaSquares`. -/
def initializeLevel (s : GameStateM) (newLavaSquares : Finset Coord) : GameStateM :=
  let level := levelOf s
  let startX : Int := 0
  let startY : Int := (level.size : Int) - 1
  let startingHeat : Int := (calculateHeat startX startY newLavaSquares : Nat)
  { s with
    lavaSquares := newLavaSquares,
    playerPos := (startX, startY),
    visitedSquares := fun c => if c = (startX, startY) then some startingHeat else none,
    gameState := GStatus.playing,
    moves := 0 }

/-- The part of `movePlayer` after the early returns
(`src/src/App.tsx` lines 145-169): counters are bumped, then the destination
is classified against the lava set and the target square. -/
def movePost (s : GameStateM) (newX newY : Int) : GameStateM :=
  let level := levelOf s
  let s1 : GameStateM :=
    { s with playerPos := (newX, newY), moves := s.moves + 1, totalMoves := s.totalMoves + 1 }
  if (newX, newY) ∈ s.lavaSquares then
    let s2 := { s1 with
      visitedSquares := vset s1.visitedSquares (newX, newY) (-1),
      gameState := GStatus.lost }
    if s.currentLevel = FINAL_LEVEL_INDEX then
      { s2 with highestLevelAchieved := levels.length }
    else s2
  else if newX = (level.size : Int) - 1 ∧ newY = 0 then
    { s1 with
      gameState := GStatus.won,
      highestLevelAchieved := max s.highestLevelAchieved (s.currentLevel + 1) }
  else
    { s1 with
      visitedSquares :=
        vset s1.visitedSquares (newX, newY) ((calculateHeat newX newY s.lavaSquares : Nat)) }

/-- `movePlayer` from `src/src/App.tsx` lines 121-170. -/
def movePlayer (s : GameStateM) (direction : Direction) : GameStateM :=
  if s.gameState ≠ GStatus.playing then s
  else
    let level := levelOf s
    let newX : Int :=
      match direction with
      | .left => max 0 (s.playerPos.1 - 1)
      | .right => min ((level.size : Int) - 1) (s.playerPos.1 + 1)
      | _ => s.playerPos.1
    let newY : Int :=
      match direction with
      | .up => max 0 (s.playerPos.2 - 1)
      | .down => min ((level.size : Int) - 1) (s.playerPos.2 + 1)
      | _ => s.playerPos.2
    if newX = s.playerPos.1 ∧ newY = s.playerPos.2 then s
    else movePost s newX newY

/-- `nextLevel` from `src/src/App.tsx` lines 234-238, composed with the
re-initialization effect (lines 202-206) that fires because
`initializeLevel`'s identity changes with `currentLevel`: when the level
index advances, the new level is initialized with a freshly generated lava
set (passed here as `newLavaSquares`). -/
def nextLevel (s : GameStateM) (newLavaSquares : Finset Coord) : GameStateM :=
  if s.currentLevel < FINAL_LEVEL_INDEX then
    initializeLevel { s with currentLevel := s.currentLevel + 1 } newLavaSquares
  else s

/-- The states reachable during a level: an initialization (from any prior
state, with any generated lava set) followed by any sequence of moves. -/
inductive Reachable : GameStateM → Prop
  | init (s : GameStateM) (L : Finset Coord) : Reachable (initializeLevel s L)
  | step (s : GameStateM) (d : Direction) : Reachable s → Reachable (movePlayer s d)

/-- Consistency of the visited map with the current lava set:
entries off the lava set carry the true heat of their cell; the sentinel
`-1` marks at most one cell, that cell is lava, and it occurs only in a
lost game. -/
def VisitedConsistent (s : GameStateM) : Prop :=
  (∀ c v, s.visitedSquares c = some v → c ∉ s.lavaSquares →
    v = (calculateHeat c.1 c.2 s.lavaSquares : Nat)) ∧
  (∀ c, s.visitedSquares c = some (-1) → c ∈ s.lavaSquares ∧ s.gameState = GStatus.lost) ∧
  (∀ c c', s.visitedSquares c = some (-1) → s.visitedSquares c' = some (-1) → c = c')

/-! ## Heat calculator (claim C2) -/

lemma neighborOffsets_nodup : neighborOffsets.Nodup := by decide

lemma mem_neighborOffsets_iff (a b : Int) :
    (a, b) ∈ neighborOffsets ↔ max a.natAbs b.natAbs = 1 := by
  simp only [neighborOffsets, List.mem_cons, List.not_mem_nil, or_false, Prod.mk.injEq]
  omega

/-- C2: for every position (any integer coordinates) and every hazard set,
`calculateHeat` returns exactly the number of members of the hazard set at
Chebyshev distance 1 from the position, and the result is at most 8; no
grid-size input occurs in its signature. -/
theorem calculateHeat_spec (x y : Int) (H : Finset Coord) :
    calculateHeat x y H =
      (H.filter (fun c => max (c.1 - x).natAbs (c.2 - y).natAbs = 1)).card ∧
    calculateHeat x y H ≤ 8 := by
  constructor
  · have hn : (neighborOffsets.filter (fun d => decide ((x + d.1, y + d.2) ∈ H))).Nodup :=
      neighborOffsets_nodup.filter _
    rw [calculateHeat, ← List.toFinset_card_of_nodup hn, List.toFinset_filter]
    apply Finset.card_bij (fun d _ => (x + d.1, y + d.2))
    · rintro ⟨a1, a2⟩ ha
      simp only [Finset.mem_filter, List.mem_toFinset, decide_eq_true_eq] at ha
      rw [mem_neighborOffsets_iff] at ha
      simp only [Finset.mem_filter]
      exact ⟨ha.2, by omega⟩
    · rintro ⟨a1, a2⟩ ha1 ⟨b1, b2⟩ ha2 hab
      simp only [Prod.mk.injEq] at hab ⊢
      omega
    · rintro ⟨b1, b2⟩ hb
      simp only [Finset.mem_filter] at hb
      refine ⟨(b1 - x, b2 - y), ?_, by simp only [Prod.mk.injEq]; constructor <;> ring⟩
      simp only [Finset.mem_filter, List.mem_toFinset, decide_eq_true_eq,
        mem_neighborOffsets_iff]
      have h1 : x + (b1 - x) = b1 := by ring
      have h2 : y + (b2 - y) = b2 := by ring
      rw [h1, h2]
      exact ⟨hb.2, hb.1⟩
  · have h := List.length_filter_le
      (fun d => decide ((x + d.1, y + d.2) ∈ H)) neighborOffsets
    simpa [calculateHeat] using h

/-! ## Move validator (claim C6) -/

/-- C6: for every in-bounds position and grid size, `isValidMove` applies
the clamped coordinate arithmetic of each of the four directions, treats
any other direction value as a no-op with `valid = false`, and returns
`valid = true` exactly when the destination differs from the input
position. -/
theorem isValidMove_spec (pos : Coord) (g : Int)
    (hx : 0 ≤ pos.1 ∧ pos.1 < g) (hy : 0 ≤ pos.2 ∧ pos.2 < g) :
    (isValidMove pos Direction.up g).newPos = (pos.1, max 0 (pos.2 - 1)) ∧
    (isValidMove pos Direction.down g).newPos = (pos.1, min (g - 1) (pos.2 + 1)) ∧
    (isValidMove pos Direction.left g).newPos = (max 0 (pos.1 - 1), pos.2) ∧
    (isValidMove pos Direction.right g).newPos = (min (g - 1) (pos.1 + 1), pos.2) ∧
    isValidMove pos Direction.other g = ⟨false, pos⟩ ∧
    (∀ d, (isValidMove pos d g).valid = true ↔ (isValidMove pos d g).newPos ≠ pos) := by
  refine ⟨rfl, rfl, rfl, rfl, rfl, ?_⟩
  intro d
  obtain ⟨px, py⟩ := pos
  cases d <;>
    simp [isValidMove, mkMoveResult, Prod.ext_iff]

/-- Witness for C6 at position `(0,0)` on a 10-wide grid. -/
theorem isValidMove_spec_witness :
    (0 ≤ ((0, 0) : Coord).1 ∧ ((0, 0) : Coord).1 < 10) ∧
    (0 ≤ ((0, 0) : Coord).2 ∧ ((0, 0) : Coord).2 < 10) ∧
    ((isValidMove (0, 0) Direction.up 10).newPos = (((0, 0) : Coord).1, max 0 (((0, 0) : Coord).2 - 1)) ∧
     (isValidMove (0, 0) Direction.down 10).newPos = (((0, 0) : Coord).1, min (10 - 1) (((0, 0) : Coord).2 + 1)) ∧
     (isValidMove (0, 0) Direction.left 10).newPos = (max 0 (((0, 0) : Coord).1 - 1), ((0, 0) : Coord).2) ∧
     (isValidMove (0, 0) Direction.right 10).newPos = (min (10 - 1) (((0, 0) : Coord).1 + 1), ((0, 0) : Coord).2) ∧
     isValidMove (0, 0) Direction.other 10 = ⟨false, (0, 0)⟩ ∧
     (∀ d, (isValidMove (0, 0) d 10).valid = true ↔ (isValidMove (0, 0) d 10).newPos ≠ (0, 0))) :=
  ⟨by decide, by decide, isValidMove_spec (0, 0) 10 (by decide) (by decide)⟩

/-! ## Hazard generator: size and safety (claim C3) -/

lemma genLoop_card (lc : Nat) (safe : Finset Coord) (draws : List Coord) :
    ∀ (acc s : Finset Coord), genLoop lc safe draws acc = some s →
      acc.card ≤ lc → s.card = lc := by
  induction draws with
  | nil =>
    intro acc s h hle
    simp only [genLoop] at h
    split at h
    · cases h; omega
    · cases h
  | cons d rest ih =>
    intro acc s h hle
    simp only [genLoop] at h
    split at h
    · cases h; omega
    · split at h
      · next helig =>
        refine ih _ _ h ?_
        rw [Finset.card_insert_of_not_mem helig.2]
        omega
      · exact ih _ _ h hle

lemma genLoop_safe (lc : Nat) (safe : Finset Coord) (draws : List Coord) :
    ∀ (acc s : Finset Coord), genLoop lc safe draws acc = some s →
      ∀ c ∈ safe, c ∉ acc → c ∉ s := by
  induction draws with
  | nil =>
    intro acc s h c hcs hca
    simp only [genLoop] at h
    split at h
    · cases h; exact hca
    · cases h
  | cons d rest ih =>
    intro acc s h c hcs hca
    simp only [genLoop] at h
    split at h
    · cases h; exact hca
    · split at h
      · next helig =>
        refine ih _ _ h c hcs ?_
        simp only [Finset.mem_insert]
        rintro (rfl | hc)
        · exact helig.1 hcs
        · exact hca hc
      · exact ih _ _ h c hcs hca

/-- C3: whenever the generator terminates on some sequence of draws and a
count draw in the intended range, the returned set has exactly the drawn
target size `countDraw + minLava`, that size lies in
`[minLava, maxLava]`, and neither the start cell `(0, size-1)` nor the
target cell `(size-1, 0)` is in the set. -/
theorem generate_size_safe (level : Level) (countDraw : Nat) (draws : List Coord)
    (s : Finset Coord)
    (hmm : level.minLava ≤ level.maxLava)
    (hcd : countDraw ≤ level.maxLava - level.minLava)
    (h : generateLavaSquaresFor level countDraw draws = some s) :
    s.card = countDraw + level.minLava ∧
    level.minLava ≤ s.card ∧ s.card ≤ level.maxLava ∧
    (0, (level.size : Int) - 1) ∉ s ∧ ((level.size : Int) - 1, 0) ∉ s := by
  simp only [generateLavaSquaresFor] at h
  have hcard := genLoop_card _ _ _ _ _ h (by simp)
  have hstart : (0, (level.size : Int) - 1) ∉ s :=
    genLoop_safe _ _ _ _ _ h _ (by simp [safeSquaresFor]) (by simp)
  have htarget : ((level.size : Int) - 1, 0) ∉ s :=
    genLoop_safe _ _ _ _ _ h _ (by simp [safeSquaresFor]) (by simp)
  refine ⟨hcard, ?_, ?_, hstart, htarget⟩ <;> omega

/-- Witness for C3: level-0 configuration `(10, 1, 5)`, count draw 1
(target size 2), draws `(5,5)` then `(6,6)`. -/
theorem generate_size_safe_witness :
    ((⟨10, 1, 5⟩ : Level).minLava ≤ (⟨10, 1, 5⟩ : Level).maxLava) ∧
    (1 ≤ (⟨10, 1, 5⟩ : Level).maxLava - (⟨10, 1, 5⟩ : Level).minLava) ∧
    (generateLavaSquaresFor ⟨10, 1, 5⟩ 1 [(5, 5), (6, 6)] =
      some (insert (6, 6) (insert (5, 5) (∅ : Finset Coord)))) ∧
    ((insert (6, 6) (insert (5, 5) (∅ : Finset Coord))).card = 1 + (⟨10, 1, 5⟩ : Level).minLava ∧
     (⟨10, 1, 5⟩ : Level).minLava ≤ (insert (6, 6) (insert (5, 5) (∅ : Finset Coord))).card ∧
     (insert (6, 6) (insert (5, 5) (∅ : Finset Coord))).card ≤ (⟨10, 1, 5⟩ : Level).maxLava ∧
     (0, ((⟨10, 1, 5⟩ : Level).size : Int) - 1) ∉ insert (6, 6) (insert (5, 5) (∅ : Finset Coord)) ∧
     (((⟨10, 1, 5⟩ : Level).size : Int) - 1, 0) ∉ insert (6, 6) (insert (5, 5) (∅ : Finset Coord))) :=
  ⟨by decide, by decide, rfl,
   generate_size_safe ⟨10, 1, 5⟩ 1 [(5, 5), (6, 6)] _ (by decide) (by decide) rfl⟩

/-! ## Game state machine: the move operation (claims C1, C5, C8) -/

/-- The Move Validator's verdict for the current state: `isValidMove`
applied to the current position, the requested direction, and the current
level's grid size. -/
def validatorResult (s : GameStateM) (d : Direction) : MoveResult :=
  isValidMove s.playerPos d ((levelOf s).size : Int)

/-- In a playing state, `movePlayer`'s inlined clamping agrees with the
Move Validator `isValidMove`: the move proceeds to `movePost` at the
validated destination exactly when the validator reports `valid`. -/
lemma movePlayer_eq_validated (s : GameStateM) (d : Direction)
    (hp : s.gameState = GStatus.playing) :
    movePlayer s d =
      if (validatorResult s d).valid then
        movePost s (validatorResult s d).newPos.1 (validatorResult s d).newPos.2
      else s := by
  cases d <;>
    simp only [movePlayer, validatorResult, isValidMove, mkMoveResult, hp, ne_eq,
      not_true_eq_false, if_false, Bool.or_eq_true, decide_eq_true_eq,
      Bool.false_eq_true, ite_false] <;>
    split <;> (try split) <;> simp_all

lemma movePost_base (s : GameStateM) (x y : Int) :
    (movePost s x y).moves = s.moves + 1 ∧
    (movePost s x y).totalMoves = s.totalMoves + 1 ∧
    (movePost s x y).lavaSquares = s.lavaSquares ∧
    (movePost s x y).currentLevel = s.currentLevel ∧
    (movePost s x y).playerPos = (x, y) := by
  simp only [movePost]
  split
  · split <;> simp
  · split <;> simp

lemma movePost_lost (s : GameStateM) (x y : Int)
    (hm : ((x, y) : Coord) ∈ s.lavaSquares) :
    (movePost s x y).gameState = GStatus.lost ∧
    (movePost s x y).visitedSquares = vset s.visitedSquares (x, y) (-1) ∧
    (s.currentLevel = FINAL_LEVEL_INDEX →
      (movePost s x y).highestLevelAchieved = levels.length) ∧
    (s.currentLevel ≠ FINAL_LEVEL_INDEX →
      (movePost s x y).highestLevelAchieved = s.highestLevelAchieved) := by
  simp only [movePost, if_pos hm]
  split <;> simp_all

lemma movePost_won (s : GameStateM) (x y : Int)
    (hm : ((x, y) : Coord) ∉ s.lavaSquares)
    (ht : x = ((levelOf s).size : Int) - 1 ∧ y = 0) :
    (movePost s x y).gameState = GStatus.won ∧
    (movePost s x y).visitedSquares = s.visitedSquares ∧
    (movePost s x y).highestLevelAchieved =
      max s.highestLevelAchieved (s.currentLevel + 1) := by
  simp only [movePost, if_neg hm, if_pos ht]
  simp

lemma movePost_cont (s : GameStateM) (x y : Int)
    (hm : ((x, y) : Coord) ∉ s.lavaSquares)
    (ht : ¬(x = ((levelOf s).size : Int) - 1 ∧ y = 0)) :
    (movePost s x y).gameState = s.gameState ∧
    (movePost s x y).visitedSquares =
      vset s.visitedSquares (x, y) ((calculateHeat x y s.lavaSquares : Nat)) ∧
    (movePost s x y).highestLevelAchieved = s.highestLevelAchieved := by
  simp only [movePost, if_neg hm, if_neg ht]
  simp

/-- C5: calling `movePlayer` in a `won` or `lost` state, or in a playing
state whose validated move is absorbed by the boundary clamp
(`valid = false`), leaves the entire state unchanged. -/
theorem movePlayer_frame (s : GameStateM) (d : Direction) :
    (s.gameState = GStatus.won ∨ s.gameState = GStatus.lost → movePlayer s d = s) ∧
    (s.gameState = GStatus.playing → (validatorResult s d).valid = false →
      movePlayer s d = s) := by
  constructor
  · rintro (h | h) <;> simp [movePlayer, h]
  · intro hp hv
    rw [movePlayer_eq_validated s d hp, hv]
    simp

/-- A terminal (won) state used by the C5 witness. -/
def wonState : GameStateM :=
  ⟨0, (9, 0), ∅, fun _ => none, GStatus.won, 3, 3, 1⟩

/-- A playing state at the top-left corner used by the C5 witness. -/
def cornerState : GameStateM :=
  ⟨0, (0, 0), ∅, fun _ => none, GStatus.playing, 2, 2, 0⟩

/-- Witness for C5: the terminal-state guard at a concrete won state, and
the clamp guard for `up` at the corner `(0,0)`. -/
theorem movePlayer_frame_witness :
    (wonState.gameState = GStatus.won ∨ wonState.gameState = GStatus.lost) ∧
    movePlayer wonState Direction.up = wonState ∧
    cornerState.gameState = GStatus.playing ∧
    (validatorResult cornerState Direction.up).valid = false ∧
    movePlayer cornerState Direction.up = cornerState :=
  ⟨Or.inl rfl,
   (movePlayer_frame wonState Direction.up).1 (Or.inl rfl),
   rfl, by decide,
   (movePlayer_frame cornerState Direction.up).2 rfl (by decide)⟩

/-- C1: in a playing state, when the validated move changes the position,
`movePlayer` increments both move counters by exactly 1 and classifies the
destination: a hazard destination gets the sentinel `-1` in the visited map
and the status becomes `lost` (no other visited entry changes); the target
cell `(size-1, 0)` wins without extending the visited map; any other
destination is recorded with its heat against the current lava set and the
status stays `playing`. -/
theorem movePlayer_spec (s : GameStateM) (d : Direction)
    (hp : s.gameState = GStatus.playing)
    (hv : (validatorResult s d).valid = true) :
    (movePlayer s d).moves = s.moves + 1 ∧
    (movePlayer s d).totalMoves = s.totalMoves + 1 ∧
    ((validatorResult s d).newPos ∈ s.lavaSquares →
      (movePlayer s d).visitedSquares (validatorResult s d).newPos = some (-1) ∧
      (movePlayer s d).gameState = GStatus.lost ∧
      ∀ c, c ≠ (validatorResult s d).newPos →
        (movePlayer s d).visitedSquares c = s.visitedSquares c) ∧
    ((validatorResult s d).newPos ∉ s.lavaSquares →
      (validatorResult s d).newPos = (((levelOf s).size : Int) - 1, 0) →
      (movePlayer s d).gameState = GStatus.won ∧
      (movePlayer s d).visitedSquares = s.visitedSquares) ∧
    ((validatorResult s d).newPos ∉ s.lavaSquares →
      (validatorResult s d).newPos ≠ (((levelOf s).size : Int) - 1, 0) →
      (movePlayer s d).gameState = GStatus.playing ∧
      (movePlayer s d).visitedSquares (validatorResult s d).newPos =
        some ((calculateHeat (validatorResult s d).newPos.1
          (validatorResult s d).newPos.2 s.lavaSquares : Nat)) ∧
      ∀ c, c ≠ (validatorResult s d).newPos →
        (movePlayer s d).visitedSquares c = s.visitedSquares c) := by
  have hmp : movePlayer s d =
      movePost s (validatorResult s d).newPos.1 (validatorResult s d).newPos.2 := by
    rw [movePlayer_eq_validated s d hp, hv]
    simp
  set p := (validatorResult s d).newPos with hpdef
  rw [hmp]
  refine ⟨(movePost_base s p.1 p.2).1, (movePost_base s p.1 p.2).2.1, ?_, ?_, ?_⟩
  · intro hm
    have hl := movePost_lost s p.1 p.2 hm
    refine ⟨?_, hl.1, ?_⟩
    · rw [hl.2.1]
      simp [vset]
    · intro c hc
      rw [hl.2.1]
      simp [vset, hc]
  · intro hm ht
    have hw := movePost_won s p.1 p.2 hm (by simpa [Prod.ext_iff] using ht)
    exact ⟨hw.1, hw.2.1⟩
  · intro hm ht
    have hc := movePost_cont s p.1 p.2 hm (by simpa [Prod.ext_iff] using ht)
    refine ⟨by rw [hc.1, hp], ?_, ?_⟩
    · rw [hc.2.1]
      simp [vset]
    · intro c hcp
      rw [hc.2.1]
      simp [vset, hcp]

/-- The spec's loss scenario: level 0, lava at `(5,5)` and `(6,6)`, player
at `(5,4)`, about to move down. -/
def lostScenario : GameStateM :=
  ⟨0, (5, 4), {(5, 5), (6, 6)}, fun _ => none, GStatus.playing, 0, 0, 0⟩

/-- Witness for C1 at the spec's loss scenario (destination `(5,5)` is
lava). -/
theorem movePlayer_spec_witness :
    lostScenario.gameState = GStatus.playing ∧
    (validatorResult lostScenario Direction.down).valid = true ∧
    ((movePlayer lostScenario Direction.down).moves = lostScenario.moves + 1 ∧
     (movePlayer lostScenario Direction.down).totalMoves = lostScenario.totalMoves + 1 ∧
     ((validatorResult lostScenario Direction.down).newPos ∈ lostScenario.lavaSquares →
       (movePlayer lostScenario Direction.down).visitedSquares
         (validatorResult lostScenario Direction.down).newPos = some (-1) ∧
       (movePlayer lostScenario Direction.down).gameState = GStatus.lost ∧
       ∀ c, c ≠ (validatorResult lostScenario Direction.down).newPos →
         (movePlayer lostScenario Direction.down).visitedSquares c =
           lostScenario.visitedSquares c) ∧
     ((validatorResult lostScenario Direction.down).newPos ∉ lostScenario.lavaSquares →
       (validatorResult lostScenario Direction.down).newPos =
         (((levelOf lostScenario).size : Int) - 1, 0) →
       (movePlayer lostScenario Direction.down).gameState = GStatus.won ∧
       (movePlayer lostScenario Direction.down).visitedSquares =
         lostScenario.visitedSquares) ∧
     ((validatorResult lostScenario Direction.down).newPos ∉ lostScenario.lavaSquares →
       (validatorResult lostScenario Direction.down).newPos ≠
         (((levelOf lostScenario).size : Int) - 1, 0) →
       (movePlayer lostScenario Direction.down).gameState = GStatus.playing ∧
       (movePlayer lostScenario Direction.down).visitedSquares
         (validatorResult lostScenario Direction.down).newPos =
         some ((calculateHeat (validatorResult lostScenario Direction.down).newPos.1
           (validatorResult lostScenario Direction.down).newPos.2
           lostScenario.lavaSquares : Nat)) ∧
       ∀ c, c ≠ (validatorResult lostScenario Direction.down).newPos →
         (movePlayer lostScenario Direction.down).visitedSquares c =
           lostScenario.visitedSquares c)) :=
  ⟨rfl, by decide, movePlayer_spec lostScenario Direction.down rfl (by decide)⟩

/-- C8: after a winning move at level index `i`, `highestLevelAchieved`
becomes `max` of its previous value and `i+1`; after a losing move on the
final level it becomes the catalog length; a losing move on a non-final
level leaves it unchanged. -/
theorem highest_level_spec (s : GameStateM) (d : Direction)
    (hp : s.gameState = GStatus.playing)
    (hv : (validatorResult s d).valid = true) :
    ((validatorResult s d).newPos ∉ s.lavaSquares →
      (validatorResult s d).newPos = (((levelOf s).size : Int) - 1, 0) →
      (movePlayer s d).highestLevelAchieved =
        max s.highestLevelAchieved (s.currentLevel + 1)) ∧
    ((validatorResult s d).newPos ∈ s.lavaSquares →
      s.currentLevel = FINAL_LEVEL_INDEX →
      (movePlayer s d).highestLevelAchieved = levels.length) ∧
    ((validatorResult s d).newPos ∈ s.lavaSquares →
      s.currentLevel ≠ FINAL_LEVEL_INDEX →
      (movePlayer s d).highestLevelAchieved = s.highestLevelAchieved) := by
  have hmp : movePlayer s d =
      movePost s (validatorResult s d).newPos.1 (validatorResult s d).newPos.2 := by
    rw [movePlayer_eq_validated s d hp, hv]
    simp
  set p := (validatorResult s d).newPos with hpdef
  rw [hmp]
  refine ⟨?_, ?_, ?_⟩
  · intro hm ht
    exact (movePost_won s p.1 p.2 hm (by simpa [Prod.ext_iff] using ht)).2.2
  · intro hm hf
    exact (movePost_lost s p.1 p.2 hm).2.2.1 hf
  · intro hm hf
    exact (movePost_lost s p.1 p.2 hm).2.2.2 hf

/-- A playing state one step above the target cell, used by the C8
witness. -/
def nearWinScenario : GameStateM :=
  ⟨0, (9, 1), ∅, fun _ => none, GStatus.playing, 5, 7, 0⟩

/-- Witness for C8: moving up from `(9,1)` on level 0 reaches the target
`(9,0)` and raises `highestLevelAchieved` to `max 0 1`. -/
theorem highest_level_spec_witness :
    nearWinScenario.gameState = GStatus.playing ∧
    (validatorResult nearWinScenario Direction.up).valid = true ∧
    (((validatorResult nearWinScenario Direction.up).newPos ∉ nearWinScenario.lavaSquares →
      (validatorResult nearWinScenario Direction.up).newPos =
        (((levelOf nearWinScenario).size : Int) - 1, 0) →
      (movePlayer nearWinScenario Direction.up).highestLevelAchieved =
        max nearWinScenario.highestLevelAchieved (nearWinScenario.currentLevel + 1)) ∧
     ((validatorResult nearWinScenario Direction.up).newPos ∈ nearWinScenario.lavaSquares →
      nearWinScenario.currentLevel = FINAL_LEVEL_INDEX →
      (movePlayer nearWinScenario Direction.up).highestLevelAchieved = levels.length) ∧
     ((validatorResult nearWinScenario Direction.up).newPos ∈ nearWinScenario.lavaSquares →
      nearWinScenario.currentLevel ≠ FINAL_LEVEL_INDEX →
      (movePlayer nearWinScenario Direction.up).highestLevelAchieved =
        nearWinScenario.highestLevelAchieved)) :=
  ⟨rfl, by decide, highest_level_spec nearWinScenario Direction.up rfl (by decide)⟩

/-! ## Level initialization (claim C4) -/

/-- C4: `initializeLevel` sets the position to the start cell
`(0, size-1)`, installs the freshly generated lava set it was handed,
resets the visited map to exactly one entry — the start cell mapped to the
heat computed against that same freshly generated set — resets the
per-level move counter, and sets the status to `playing`; and a second
invocation in a row behaves exactly as a single invocation with the second
call's fresh set (no stale data survives). -/
theorem initializeLevel_spec (s : GameStateM) (L : Finset Coord) :
    (initializeLevel s L).playerPos = ((0 : Int), ((levelOf s).size : Int) - 1) ∧
    (initializeLevel s L).lavaSquares = L ∧
    (initializeLevel s L).visitedSquares =
      (fun c : Coord => if c = ((0 : Int), ((levelOf s).size : Int) - 1) then
        some (((calculateHeat 0 (((levelOf s).size : Int) - 1) L : Nat)) : Int) else none) ∧
    (initializeLevel s L).moves = 0 ∧
    (initializeLevel s L).gameState = GStatus.playing ∧
    ∀ L', initializeLevel (initializeLevel s L') L = initializeLevel s L :=
  ⟨rfl, rfl, rfl, rfl, rfl, fun _ => rfl⟩

/-! ## Level advancement (claim C7) -/

/-- A playing (not yet won) state on level 0, used to refute the claimed
won-only guard of `nextLevel`. -/
def playingLevel0 : GameStateM :=
  ⟨0, (0, 9), ∅, fun _ => none, GStatus.playing, 0, 0, 0⟩

/-- Counterexample to C7: in a state whose status is `playing` (not `won`)
on a non-final level, `nextLevel` still advances the level index — the
operation itself checks only the final-index bound; the won-only
restriction lives in the UI, which renders the advance control only in the
won state. -/
theorem nextLevel_cex :
    playingLevel0.gameState = GStatus.playing ∧
    playingLevel0.gameState ≠ GStatus.won ∧
    playingLevel0.currentLevel = 0 ∧
    (nextLevel playingLevel0 ∅).currentLevel = 1 :=
  ⟨rfl, by decide, rfl, rfl⟩

/-- C7 amended: `nextLevel` increments the level index by 1 and
re-initializes the game on the new index whenever the current index is not
the final one — regardless of the game status — and leaves the state
unchanged on the final index. -/
theorem nextLevel_spec (s : GameStateM) (L : Finset Coord) :
    (s.currentLevel < FINAL_LEVEL_INDEX →
      nextLevel s L = initializeLevel { s with currentLevel := s.currentLevel + 1 } L ∧
      (nextLevel s L).currentLevel = s.currentLevel + 1) ∧
    (¬ s.currentLevel < FINAL_LEVEL_INDEX → nextLevel s L = s) := by
  constructor
  · intro h
    rw [nextLevel, if_pos h]
    exact ⟨rfl, rfl⟩
  · intro h
    rw [nextLevel, if_neg h]

/-- A won state on the final level index, used by the C7 witness. -/
def finalWonState : GameStateM :=
  ⟨9, (99, 0), ∅, fun _ => none, GStatus.won, 4, 4, 10⟩

/-- Witness for the amended C7: advancing from level 0 re-initializes on
index 1, and advancing on the final index 9 changes nothing. -/
theorem nextLevel_spec_witness :
    playingLevel0.currentLevel < FINAL_LEVEL_INDEX ∧
    (nextLevel playingLevel0 ∅ =
      initializeLevel { playingLevel0 with currentLevel := playingLevel0.currentLevel + 1 } ∅ ∧
     (nextLevel playingLevel0 ∅).currentLevel = playingLevel0.currentLevel + 1) ∧
    ¬ finalWonState.currentLevel < FINAL_LEVEL_INDEX ∧
    nextLevel finalWonState ∅ = finalWonState :=
  ⟨by decide,
   (nextLevel_spec playingLevel0 ∅).1 (by decide),
   by decide,
   (nextLevel_spec finalWonState ∅).2 (by decide)⟩

/-! ## Visited-map invariant (claim C10) -/

lemma visitedConsistent_init (s : GameStateM) (L : Finset Coord) :
    VisitedConsistent (initializeLevel s L) := by
  refine ⟨?_, ?_, ?_⟩
  · intro c v h hc
    simp only [initializeLevel] at h hc ⊢
    split at h
    · next hceq =>
      subst hceq
      simp only [Option.some.injEq] at h
      exact h.symm
    · cases h
  · intro c h
    simp only [initializeLevel] at h
    split at h
    · simp only [Option.some.injEq] at h
      omega
    · cases h
  · intro c c' h h'
    simp only [initializeLevel] at h
    split at h
    · simp only [Option.some.injEq] at h
      omega
    · cases h

lemma visitedConsistent_movePost (s : GameStateM) (x y : Int)
    (hp : s.gameState = GStatus.playing) (h : VisitedConsistent s) :
    VisitedConsistent (movePost s x y) := by
  obtain ⟨h1, h2, h3⟩ := h
  have hlava : (movePost s x y).lavaSquares = s.lavaSquares :=
    (movePost_base s x y).2.2.1
  by_cases hm : ((x, y) : Coord) ∈ s.lavaSquares
  · obtain ⟨hg, hvis, _, _⟩ := movePost_lost s x y hm
    refine ⟨?_, ?_, ?_⟩
    · intro c v hcv hcl
      rw [hvis] at hcv
      rw [hlava] at hcl ⊢
      unfold vset at hcv
      split at hcv
      · next hceq =>
        subst hceq
        exact absurd hm hcl
      · exact h1 c v hcv hcl
    · intro c hcv
      rw [hvis] at hcv
      rw [hlava]
      unfold vset at hcv
      split at hcv
      · next hceq =>
        subst hceq
        exact ⟨hm, hg⟩
      · exact absurd hp (by simp [(h2 c hcv).2])
    · intro c c' hcv hcv'
      rw [hvis] at hcv hcv'
      unfold vset at hcv hcv'
      split at hcv
      · next hceq =>
        split at hcv'
        · next hceq' => rw [hceq, hceq']
        · exact absurd hp (by simp [(h2 c' hcv').2])
      · exact absurd hp (by simp [(h2 c hcv).2])
  · by_cases ht : x = ((levelOf s).size : Int) - 1 ∧ y = 0
    · obtain ⟨hg, hvis, _⟩ := movePost_won s x y hm ht
      refine ⟨?_, ?_, ?_⟩
      · intro c v hcv hcl
        rw [hvis] at hcv
        rw [hlava] at hcl ⊢
        exact h1 c v hcv hcl
      · intro c hcv
        rw [hvis] at hcv
        exact absurd hp (by simp [(h2 c hcv).2])
      · intro c c' hcv hcv'
        rw [hvis] at hcv
        exact absurd hp (by simp [(h2 c hcv).2])
    · obtain ⟨hg, hvis, _⟩ := movePost_cont s x y hm ht
      refine ⟨?_, ?_, ?_⟩
      · intro c v hcv hcl
        rw [hvis] at hcv
        rw [hlava] at hcl ⊢
        unfold vset at hcv
        split at hcv
        · next hceq =>
          subst hceq
          simp only [Option.some.injEq] at hcv
          simp [← hcv]
        · exact h1 c v hcv hcl
      · intro c hcv
        rw [hvis] at hcv
        rw [hlava]
        unfold vset at hcv
        split at hcv
        · simp only [Option.some.injEq] at hcv
          omega
        · exact absurd hp (by simp [(h2 c hcv).2])
      · intro c c' hcv hcv'
        rw [hvis] at hcv
        unfold vset at hcv
        split at hcv
        · simp only [Option.some.injEq] at hcv
          omega
        · exact absurd hp (by simp [(h2 c hcv).2])

lemma visitedConsistent_move (s : GameStateM) (d : Direction)
    (h : VisitedConsistent s) : VisitedConsistent (movePlayer s d) := by
  by_cases hp : s.gameState = GStatus.playing
  · rw [movePlayer_eq_validated s d hp]
    split
    · exact visitedConsistent_movePost s _ _ hp h
    · exact h
  · have hid : movePlayer s d = s := by simp [movePlayer, hp]
    rw [hid]
    exact h

/-- C10: in every state reachable from a level initialization by any
sequence of moves, the visited map is consistent with the current lava
set: every entry off the lava set equals the true heat of its cell
against the current set, the sentinel `-1` marks at most one cell, that
cell lies in the lava set, and such an entry exists only in a lost game. -/
theorem reachable_visited_invariant (st : GameStateM) (h : Reachable st) :
    VisitedConsistent st := by
  induction h with
  | init s L => exact visitedConsistent_init s L
  | step s d _ ih => exact visitedConsistent_move s d ih

/-- A blank prior state for the C10 witness. -/
def blankState : GameStateM :=
  ⟨0, (0, 0), ∅, fun _ => none, GStatus.playing, 0, 0, 0⟩

/-- Witness for C10: a concrete reachable state (initialize level 0 with an
empty lava set, then move right) satisfies the invariant. -/
theorem reachable_visited_invariant_witness :
    Reachable (movePlayer (initializeLevel blankState ∅) Direction.right) ∧
    VisitedConsistent (movePlayer (initializeLevel blankState ∅) Direction.right) :=
  ⟨Reachable.step _ Direction.right (Reachable.init blankState ∅),
   reachable_visited_invariant _
     (Reachable.step _ Direction.right (Reachable.init blankState ∅))⟩

/-! ## Hazard generator termination (claim C9) -/

/-- The coordinates the generator can draw: `0 ≤ x, y < size`
(`Math.floor(Math.random() * level.size)` on each axis). -/
def gridCells (size : Nat) : Finset Coord :=
  Finset.Icc (0 : Int) ((size : Int) - 1) ×ˢ Finset.Icc (0 : Int) ((size : Int) - 1)

/-- The eligible pool of the rejection-sampling loop: grid cells minus the
two protected squares. -/
def gridPool (level : Level) : Finset Coord :=
  gridCells level.size \ safeSquaresFor level

lemma card_gridCells (n : Nat) : (gridCells n).card = n * n := by
  rw [gridCells, Finset.card_product, Int.card_Icc]
  simp

lemma safeSquares_subset_grid (level : Level) (hs : 2 ≤ level.size) :
    safeSquaresFor level ⊆ gridCells level.size := by
  intro c hc
  simp only [safeSquaresFor, Finset.mem_insert, Finset.mem_singleton] at hc
  rcases hc with rfl | rfl <;>
    simp only [gridCells, Finset.mem_product, Finset.mem_Icc] <;>
    constructor <;> constructor <;> omega

lemma card_safeSquares (level : Level) (hs : 2 ≤ level.size) :
    (safeSquaresFor level).card = 2 := by
  rw [safeSquaresFor, Finset.card_insert_of_not_mem, Finset.card_singleton]
  simp only [Finset.mem_singleton, Prod.mk.injEq, not_and]
  intro h
  omega

lemma card_gridPool (level : Level) (hs : 2 ≤ level.size) :
    (gridPool level).card = level.size * level.size - 2 := by
  rw [gridPool, Finset.card_sdiff (safeSquares_subset_grid level hs),
    card_gridCells, card_safeSquares level hs]

lemma genLoop_done (lc : Nat) (safe : Finset Coord) (draws : List Coord)
    (acc : Finset Coord) (hc : lc ≤ acc.card) :
    genLoop lc safe draws acc = some acc := by
  cases draws <;> simp [genLoop, hc]

lemma pool_not_safe (level : Level) (c : Coord) (hc : c ∈ gridPool level) :
    c ∉ safeSquaresFor level :=
  (Finset.mem_sdiff.mp hc).2

lemma genLoop_inner (lc : Nat) (level : Level) (f : Nat → Coord) (k : Nat)
    (hgrid : ∀ m, f m ∈ gridCells level.size)
    (hrec : ∀ (acc : Finset Coord) (n : Nat), acc ⊆ gridPool level →
      lc - acc.card ≤ k →
      ∃ len, (genLoop lc (safeSquaresFor level)
        ((List.range' n len).map f) acc).isSome) :
    ∀ (j n : Nat) (acc : Finset Coord), acc ⊆ gridPool level →
      acc.card < lc → lc - acc.card ≤ k + 1 →
      f (n + j) ∈ gridPool level → f (n + j) ∉ acc →
      ∃ len, (genLoop lc (safeSquaresFor level)
        ((List.range' n len).map f) acc).isSome := by
  intro j
  induction j with
  | zero =>
    intro n acc hsub hlt hk hfp hfa
    rw [Nat.add_zero] at hfp hfa
    have hfs : f n ∉ safeSquaresFor level := pool_not_safe level (f n) hfp
    have helig : f n ∉ safeSquaresFor level ∧ f n ∉ acc := ⟨hfs, hfa⟩
    have hsub2 : insert (f n) acc ⊆ gridPool level :=
      Finset.insert_subset hfp hsub
    have hk2 : lc - (insert (f n) acc).card ≤ k := by
      rw [Finset.card_insert_of_not_mem hfa]
      omega
    obtain ⟨len, hlen⟩ := hrec (insert (f n) acc) (n + 1) hsub2 hk2
    refine ⟨len + 1, ?_⟩
    rw [List.range'_succ, List.map_cons]
    simp only [genLoop, if_neg (by omega : ¬ lc ≤ acc.card), if_pos helig]
    exact hlen
  | succ j ihj =>
    intro n acc hsub hlt hk hfp hfa
    by_cases helig : f n ∉ safeSquaresFor level ∧ f n ∉ acc
    · have hfpool : f n ∈ gridPool level :=
        Finset.mem_sdiff.mpr ⟨hgrid n, helig.1⟩
      have hsub2 : insert (f n) acc ⊆ gridPool level :=
        Finset.insert_subset hfpool hsub
      have hk2 : lc - (insert (f n) acc).card ≤ k := by
        rw [Finset.card_insert_of_not_mem helig.2]
        omega
      obtain ⟨len, hlen⟩ := hrec (insert (f n) acc) (n + 1) hsub2 hk2
      refine ⟨len + 1, ?_⟩
      rw [List.range'_succ, List.map_cons]
      simp only [genLoop, if_neg (by omega : ¬ lc ≤ acc.card), if_pos helig]
      exact hlen
    · have hidx : n + 1 + j = n + (j + 1) := by omega
      obtain ⟨len, hlen⟩ := ihj (n + 1) acc hsub hlt hk
        (by rw [hidx]; exact hfp) (by rw [hidx]; exact hfa)
      refine ⟨len + 1, ?_⟩
      rw [List.range'_succ, List.map_cons]
      simp only [genLoop, if_neg (by omega : ¬ lc ≤ acc.card), if_neg helig]
      exact hlen

lemma genLoop_terminates_aux (lc : Nat) (level : Level) (f : Nat → Coord)
    (hgrid : ∀ m, f m ∈ gridCells level.size)
    (hfair : ∀ n c, c ∈ gridPool level → ∃ m, n ≤ m ∧ f m = c)
    (hlc : lc ≤ (gridPool level).card) :
    ∀ (k : Nat) (acc : Finset Coord) (n : Nat), acc ⊆ gridPool level →
      lc - acc.card ≤ k →
      ∃ len, (genLoop lc (safeSquaresFor level)
        ((List.range' n len).map f) acc).isSome := by
  intro k
  induction k with
  | zero =>
    intro acc n hsub hk
    exact ⟨0, by simp [genLoop_done lc (safeSquaresFor level) _ acc (by omega)]⟩
  | succ k ih =>
    intro acc n hsub hk
    by_cases hle : lc ≤ acc.card
    · exact ⟨0, by simp [genLoop_done lc (safeSquaresFor level) _ acc hle]⟩
    · push_neg at hle
      have hne : ∃ c ∈ gridPool level, c ∉ acc := by
        by_contra hno
        push_neg at hno
        have hsub2 : gridPool level ⊆ acc := hno
        have := Finset.card_le_card hsub2
        omega
      obtain ⟨c, hcp, hca⟩ := hne
      obtain ⟨m, hnm, hfm⟩ := hfair n c hcp
      have hidx : n + (m - n) = m := by omega
      refine genLoop_inner lc level f k hgrid ih (m - n) n acc hsub hle hk ?_ ?_
      · rw [hidx, hfm]
        exact hcp
      · rw [hidx, hfm]
        exact hca

/-- C9: for every level configuration with `maxLava < size² - 2` (the
spec's implicit precondition, with the two protected cells removed from
the pool) and `2 ≤ size`, and for every in-grid draw stream that
eventually produces every eligible coordinate from any point on, the
rejection-sampling loop of the generator terminates: some finite prefix
of the stream makes it return a set. -/
theorem generator_terminates (level : Level) (countDraw : Nat) (f : Nat → Coord)
    (hsize : 2 ≤ level.size)
    (hmm : level.minLava ≤ level.maxLava)
    (hmax : level.maxLava < level.size * level.size - 2)
    (hcd : countDraw ≤ level.maxLava - level.minLava)
    (hgrid : ∀ m, f m ∈ gridCells level.size)
    (hfair : ∀ n c, c ∈ gridPool level → ∃ m, n ≤ m ∧ f m = c) :
    ∃ len, (generateLavaSquaresFor level countDraw
      ((List.range len).map f)).isSome := by
  have hpool := card_gridPool level hsize
  have hlc : countDraw + level.minLava ≤ (gridPool level).card := by omega
  obtain ⟨len, h⟩ := genLoop_terminates_aux (countDraw + level.minLava) level f
    hgrid hfair hlc (countDraw + level.minLava) ∅ 0 (by simp) (by simp)
  refine ⟨len, ?_⟩
  simp only [generateLavaSquaresFor]
  rw [List.range_eq_range']
  exact h

/-- The cyclic coordinate stream used by the C9 witness: period 4 over the
2×2 grid. -/
def witnessStream (m : Nat) : Coord := (((m % 2 : Nat) : Int), (((m / 2) % 2 : Nat) : Int))

/-- Witness for C9 at the 2×2 level configuration `(2, 1, 1)` with the
cyclic stream: all hypotheses hold and the generator terminates on a
finite prefix. -/
theorem generator_terminates_witness :
    2 ≤ (⟨2, 1, 1⟩ : Level).size ∧
    (⟨2, 1, 1⟩ : Level).minLava ≤ (⟨2, 1, 1⟩ : Level).maxLava ∧
    (⟨2, 1, 1⟩ : Level).maxLava <
      (⟨2, 1, 1⟩ : Level).size * (⟨2, 1, 1⟩ : Level).size - 2 ∧
    0 ≤ (⟨2, 1, 1⟩ : Level).maxLava - (⟨2, 1, 1⟩ : Level).minLava ∧
    (∀ m, witnessStream m ∈ gridCells (⟨2, 1, 1⟩ : Level).size) ∧
    (∀ n c, c ∈ gridPool ⟨2, 1, 1⟩ → ∃ m, n ≤ m ∧ witnessStream m = c) ∧
    ∃ len, (generateLavaSquaresFor ⟨2, 1, 1⟩ 0
      ((List.range len).map witnessStream)).isSome := by
  have hgrid : ∀ m, witnessStream m ∈ gridCells (⟨2, 1, 1⟩ : Level).size := by
    intro m
    simp only [witnessStream, gridCells, Finset.mem_product, Finset.mem_Icc]
    constructor <;> constructor <;> omega
  have hfair : ∀ n c, c ∈ gridPool ⟨2, 1, 1⟩ → ∃ m, n ≤ m ∧ witnessStream m = c := by
    intro n c hc
    obtain ⟨a, b⟩ := c
    simp only [gridPool, gridCells, safeSquaresFor, Finset.mem_sdiff,
      Finset.mem_product, Finset.mem_Icc, Finset.mem_insert, Finset.mem_singleton,
      Prod.mk.injEq, not_or, not_and] at hc
    have hcase : (a = 0 ∧ b = 0) ∨ (a = 1 ∧ b = 1) := by omega
    rcases hcase with ⟨rfl, rfl⟩ | ⟨rfl, rfl⟩
    · refine ⟨4 * n, by omega, ?_⟩
      simp only [witnessStream, Prod.mk.injEq]
      constructor <;> [skip; skip] <;> omega
    · refine ⟨4 * n + 3, by omega, ?_⟩
      simp only [witnessStream, Prod.mk.injEq]
      constructor <;> [skip; skip] <;> omega
  exact ⟨by decide, by decide, by decide, by decide, hgrid, hfair,
    generator_terminates ⟨2, 1, 1⟩ 0 witnessStream (by decide) (by decide)
      (by decide) (by decide) hgrid hfair⟩
